import Mathlib

/-!
Verification of the course-generation pipeline of the text-to-course web
application (Express + Mongoose backend, React client).

Each section shallowly embeds one component, translated from the source:

* `aiService` (server/services/aiService.js): `makeGeminiRequest` retry loop
  and `parseJSONResponse` JSON extraction.  Raw response text is modelled as
  `List Char` (a JS string is a sequence of code units); the network and
  `JSON.parse` are modelled as oracles supplied as parameters.
* `transformContentBlocks` (client/src/pages/LessonView.tsx) and the MCQ
  renderers (`MCQBlock`, `PDFMCQBlock`, `LessonPDFDocument`).
* the `Progress` model methods (`completeLesson`, `completeModule`,
  `isLessonCompleted`, `isModuleCompleted`, `calculateProgress`) and the
  progress controller helper `checkModuleCompletion`.
* the `Lesson` model pre-save middleware and the lesson controller
  (`getLesson` read-through enrichment).
* the course controller `generateCourse` persistence loop, with the database
  modelled as the set of documents saved so far and save failures injected
  through boolean oracles.
-/

namespace TextToCourse

/-! ## AI Gateway: aiService.makeGeminiRequest

The constructor sets `maxRetries = 3` and `retryDelay = 1000`.  An attempt
fails on a non-2xx response (the thrown message carries the HTTP status),
on an empty candidate list, or on a transport error; all are caught by the
same `catch`.  The outcome of attempt `n` is supplied by an oracle so the
control flow can be analysed for every possible sequence of outcomes.
-/

/-- One way an attempt inside `makeGeminiRequest` can fail: a non-2xx HTTP
response (carrying the status), an empty `candidates` list, or a
transport-level error. -/
inductive GeminiFailure where
  | apiError (status : Nat) (statusText : String)
  | noCandidates
  | transport (msg : String)
deriving DecidableEq, Repr

/-- Value of `this.maxRetries` from the `AIService` constructor. -/
def maxRetries : Nat := 3

/-- Value of `this.retryDelay` (ms) from the `AIService` constructor. -/
def retryDelay : Nat := 1000

/-- Observable outcome of one run of `makeGeminiRequest`: the returned (or
thrown) value, the list of delays slept between attempts, and how many
attempts were made. -/
structure GeminiRun where
  result : Except GeminiFailure String
  delays : List Nat
  attemptsMade : Nat

/-- The retry loop body of `makeGeminiRequest`.  `attempt` is the 1-based
attempt counter of the `for` loop; `fuel` is the number of attempts still
allowed including this one (`fuel = maxRetries - attempt + 1`), so
`fuel = 1` is exactly the `attempt === this.maxRetries` case, where the last
error is rethrown instead of sleeping `retryDelay * attempt`.  A successful
attempt returns `generatedText.trim()`. -/
def geminiGo (oracle : Nat → Except GeminiFailure String) :
    Nat → Nat → GeminiRun
  | _, 0 => ⟨.error (.transport "Max retries exceeded"), [], 0⟩
  | attempt, fuel + 1 =>
    match oracle attempt with
    | .ok s => ⟨.ok s.trim, [], 1⟩
    | .error e =>
      if fuel = 0 then ⟨.error e, [], 1⟩
      else
        let r := geminiGo oracle (attempt + 1) fuel
        ⟨r.result, retryDelay * attempt :: r.delays, r.attemptsMade + 1⟩

/-- Entry point `makeGeminiRequest`, starting at attempt 1 with `maxRetries`
attempts available. -/
def makeGeminiRequest (oracle : Nat → Except GeminiFailure String) : GeminiRun :=
  geminiGo oracle 1 maxRetries

/-! ## Response Normalizer: aiService.parseJSONResponse

Translated from `parseJSONResponse` working on `List Char`.  `JSON.parse`
is an oracle parameter `parse`; the cleanup (trim, fence stripping, brace
location) is translated literally.
-/

/-- Characters matched by the regex class `\s` (ASCII part), used by the
fence-stripping regexes `^`+"```json\\s*" and `\\s*`+"```$". -/
def jsWs (c : Char) : Bool :=
  c = ' ' || c = '\t' || c = '\n' || c = '\r' || c = '\x0b' || c = '\x0c'

/-- Model of `String.prototype.trim`: drop leading and trailing whitespace. -/
def trimChars (s : List Char) : List Char :=
  ((s.dropWhile jsWs).reverse.dropWhile jsWs).reverse

/-- Whether the text ends in a closing fence, i.e. the regex `\s*`+"```$"
matches. -/
def endsWithTicks (s : List Char) : Bool :=
  "```".toList.isPrefixOf s.reverse

/-- Model of the trailing-fence replace: if the text ends with three
backticks, drop them together with the whitespace run before them. -/
def stripTrailingFence (s : List Char) : List Char :=
  if endsWithTicks s then ((s.reverse.drop 3).dropWhile jsWs).reverse else s

/-- The fence-stripping step of `parseJSONResponse`: a leading "```json"
(7 characters) or bare "```" (3 characters) fence is removed together with
the whitespace after it, and then a trailing fence is removed; text not
starting with a fence is left alone. -/
def stripFences (s : List Char) : List Char :=
  if "```json".toList.isPrefixOf s then
    stripTrailingFence ((s.drop 7).dropWhile jsWs)
  else if "```".toList.isPrefixOf s then
    stripTrailingFence ((s.drop 3).dropWhile jsWs)
  else s

/-- Position returned by `indexOf` for the first opening brace. -/
def firstBraceIdx (s : List Char) : Option Nat :=
  s.findIdx? (· = '{')

/-- Position returned by `lastIndexOf` for the last closing brace. -/
def lastBraceIdx (s : List Char) : Option Nat :=
  match s.reverse.findIdx? (· = '}') with
  | some i => some (s.length - 1 - i)
  | none => none

/-- Model of `String.prototype.substring`: both arguments are clamped to
the length and swapped when `a > b`. -/
def jsSubstring (s : List Char) (a b : Nat) : List Char :=
  let a' := min a s.length
  let b' := min b s.length
  (s.drop (min a' b')).take (max a' b' - min a' b')

/-- The brace-location step: when both a `{` and a `}` occur, keep the
substring from the first `{` to the last `}` inclusive; otherwise leave the
text unchanged. -/
def extractBracesSpan (s : List Char) : List Char :=
  match firstBraceIdx s, lastBraceIdx s with
  | some a, some b => jsSubstring s a (b + 1)
  | _, _ => s

/-- The full cleanup pipeline of `parseJSONResponse` before `JSON.parse`:
trim, strip fences, locate braces. -/
def cleanResponse (response : List Char) : List Char :=
  extractBracesSpan (stripFences (trimChars response))

/-- The single error kind `parseJSONResponse` can throw:
`new Error('Invalid JSON format in AI response')`. -/
inductive ParseError where
  | invalidJSON
deriving DecidableEq, Repr

/-- Function `parseJSONResponse`: clean the raw response and hand the result to
`JSON.parse` (the oracle `parse`); if parsing fails the invalid-JSON error
is thrown — there is no retry inside this function. -/
def parseJSONResponse {J : Type} (parse : List Char → Option J)
    (response : List Char) : Except ParseError J :=
  match parse (cleanResponse response) with
  | some v => .ok v
  | none => .error .invalidJSON

/-- The backtick character (used by the fence checks). -/
def btick : Char := Char.ofNat 96


/-! ## Content blocks: LessonView.transformContentBlocks and MCQ renderers

The client receives `{type, content, metadata, order}` blocks from the API
(the TS union `APIContentBlock`, plus — at runtime — unknown types reaching
the `default` arm) and maps them to the frontend `ContentBlock` shape.
-/

/-- JS `x || d` on an optional number (`undefined` and `0` are falsy). -/
def jsOrNat (o : Option Nat) (d : Nat) : Nat :=
  match o with
  | some n => if n = 0 then d else n
  | none => d

/-- JS `x || d` on an optional string (`undefined` and `""` are falsy). -/
def jsOrStr (o : Option String) (d : String) : String :=
  match o with
  | some s => if s = "" then d else s
  | none => d

/-- An API content block as received by `transformContentBlocks`: the TS
union of `LessonView.tsx`, extended with the runtime case of an
unrecognized `type` string (handled by the `default` switch arm). -/
inductive APIContentBlock where
  | heading (content : String) (level : Option Nat) (order : Int)
  | paragraph (content : String) (order : Int)
  | code (content : String) (language : Option String) (order : Int)
  | video (url title description searchQuery : Option String) (order : Int)
  | quiz (question : String) (options : List String) (correctAnswer : Int)
      (explanation : Option String) (order : Int)
  | mcq (question : String) (options : List String) (correctAnswer : Int)
      (explanation : Option String) (order : Int)
  | unknown (btype : String) (order : Int)
deriving DecidableEq, Repr

/-- The frontend content-block shape (`types/lesson.ts`). -/
inductive ContentB where
  | heading (text : String) (level : Nat)
  | paragraph (text : String)
  | code (text : String) (language : String)
  | video (url : String) (title description searchQuery : Option String)
  | mcq (question : String) (options : List String) (answer : Int)
      (explanation : Option String)
deriving DecidableEq, Repr

/-- One arm of the `switch` in `transformContentBlocks`.  Note the
`quiz`/`mcq` arm passes `correctAnswer` through as `answer` unchanged, and
the `default` arm produces a paragraph naming the unknown type. -/
def transformBlock : APIContentBlock → ContentB
  | .heading c lvl _ => .heading c (jsOrNat lvl 2)
  | .paragraph c _ => .paragraph c
  | .code c lang _ => .code c (jsOrStr lang "text")
  | .video u t d q _ => .video (jsOrStr u "") t d q
  | .quiz q opts ans ex _ => .mcq q opts ans ex
  | .mcq q opts ans ex _ => .mcq q opts ans ex
  | .unknown t _ => .paragraph ("Unknown content type: " ++ t)

/-- Function `transformContentBlocks` is `apiBlocks.map(block => ...)`. -/
def transformContentBlocks (blocks : List APIContentBlock) : List ContentB :=
  blocks.map transformBlock

/-- Interactive `MCQBlock` (components/blocks/MCQBlock.tsx): after
answering, option `index` is highlighted as correct iff
`index === answer`, with the raw (un-clamped) `answer`. -/
def mcqOptionShowsCorrect (answer : Int) (index : Nat) : Bool :=
  (index : Int) = answer

/-- Interactive `MCQBlock` grading (`selectedOption === answer`). -/
def mcqGrade (answer : Int) (selectedOption : Nat) : Bool :=
  (selectedOption : Int) = answer

/-- The PDF renderers (`PDFMCQBlock.tsx` and `LessonPDFDocument` in
`ReactPDFLessonExporter.tsx`):
`answer >= 0 && answer < options.length ? answer : 0`. -/
def pdfValidAnswer (answer : Int) (numOptions : Nat) : Int :=
  if 0 ≤ answer ∧ answer < (numOptions : Int) then answer else 0

/-! ## Progress tracking: the Progress model and progress controller

Documents referenced by id are modelled with `Nat` ids; `Date` values with
`Nat` timestamps supplied by the caller.  `Math.round((c/t)*100)` is
`jsRound100` (round half up on exact rationals).
-/

/-- An entry of `progress.completedLessons`. -/
structure CompletedLesson where
  lesson : Nat
  completedAt : Nat
  timeSpent : Int
deriving DecidableEq, Repr

/-- An entry of `progress.completedModules`. -/
structure CompletedModule where
  module : Nat
  completedAt : Nat
deriving DecidableEq, Repr

/-- The mutable state of one `Progress` document. -/
structure ProgressState where
  completedLessons : List CompletedLesson
  completedModules : List CompletedModule
  courseCompleted : Bool
  courseCompletedAt : Option Nat
  progressPercentage : Nat
  lastAccessedAt : Nat
deriving DecidableEq, Repr

/-- In-place update of the element at an index, as in
`this.completedLessons[existingIndex].timeSpent += timeSpent`. -/
def modifyAt {α : Type} (f : α → α) : Nat → List α → List α
  | _, [] => []
  | 0, a :: as => f a :: as
  | n + 1, a :: as => a :: modifyAt f n as

/-- The list update performed by `progress.completeLesson`: push a new
entry when the lesson is not yet in the list (`findIndex === -1`),
otherwise accumulate `timeSpent` on the existing entry in place. -/
def addCompleted (l : List CompletedLesson) (lessonId : Nat) (timeSpent : Int)
    (now : Nat) : List CompletedLesson :=
  match l.findIdx? (fun cl => cl.lesson == lessonId) with
  | none => l ++ [⟨lessonId, now, timeSpent⟩]
  | some i =>
    modifyAt (fun cl => { cl with timeSpent := cl.timeSpent + timeSpent }) i l

/-- Method `progress.completeLesson(lessonId, timeSpent)`: update
`completedLessons` via `addCompleted` and touch `lastAccessedAt`. -/
def completeLesson (p : ProgressState) (lessonId : Nat) (timeSpent : Int)
    (now : Nat) : ProgressState :=
  { p with
    completedLessons := addCompleted p.completedLessons lessonId timeSpent now
    lastAccessedAt := now }

/-- Method `progress.completeModule(moduleId)`: push an entry when absent. -/
def completeModule (p : ProgressState) (moduleId : Nat) (now : Nat) :
    ProgressState :=
  match p.completedModules.findIdx? (fun cm => cm.module == moduleId) with
  | none =>
    { p with
      completedModules := p.completedModules ++ [⟨moduleId, now⟩]
      lastAccessedAt := now }
  | some _ => { p with lastAccessedAt := now }

/-- Method `progress.isLessonCompleted(lessonId)`. -/
def isLessonCompleted (p : ProgressState) (lessonId : Nat) : Bool :=
  p.completedLessons.any (fun cl => cl.lesson == lessonId)

/-- Method `progress.isModuleCompleted(moduleId)`. -/
def isModuleCompleted (p : ProgressState) (moduleId : Nat) : Bool :=
  p.completedModules.any (fun cm => cm.module == moduleId)

/-- Result shape of the controller helper `checkModuleCompletion`. -/
structure ModuleCheckResult where
  isCompleted : Bool
  newlyCompleted : Bool
deriving DecidableEq, Repr

/-- Controller helper `checkModuleCompletion(progress, moduleId)`:
`moduleFound` models the `!module` lookup guard and `moduleLessons` the
module's populated (live) lesson list. -/
def checkModuleCompletion (moduleFound : Bool) (p : ProgressState)
    (moduleLessons : List Nat) (moduleId : Nat) (now : Nat) :
    ModuleCheckResult × ProgressState :=
  if moduleFound = false ∨ moduleLessons.isEmpty then (⟨false, false⟩, p)
  else
    let allLessonsCompleted := moduleLessons.all (fun l => isLessonCompleted p l)
    let wasAlreadyCompleted := isModuleCompleted p moduleId
    if allLessonsCompleted = true ∧ wasAlreadyCompleted = false then
      (⟨true, true⟩, completeModule p moduleId now)
    else
      (⟨allLessonsCompleted, false⟩, p)

/-- Input of one `calculateProgress` recomputation: whether
`this.populate('course')` found the course, the total lesson count over the
course's populated modules, and the current time. -/
structure ProgressEvent where
  courseFound : Bool
  totalLessons : Nat
  now : Nat
deriving DecidableEq, Repr

/-- Model of `Math.round((completed / total) * 100)` on exact rationals:
`round(x) = floor(x + 1/2)`. -/
def jsRound100 (completed total : Nat) : Nat :=
  (200 * completed + total) / (2 * total)

/-- The percentage computed by `calculateProgress` before the completion
check. -/
def calcPct (p : ProgressState) (e : ProgressEvent) : Nat :=
  if e.totalLessons = 0 then 0
  else jsRound100 p.completedLessons.length e.totalLessons

/-- Method `progress.calculateProgress()`: recompute the percentage from
scratch, then flip `courseCompleted` (recording the timestamp) only when the
percentage is 100 and the flag is not yet set. -/
def calculateProgress (p : ProgressState) (e : ProgressEvent) : ProgressState :=
  if e.courseFound = false then { p with progressPercentage := 0 }
  else
    let p₁ := { p with progressPercentage := calcPct p e }
    if p₁.progressPercentage = 100 ∧ p₁.courseCompleted = false then
      { p₁ with courseCompleted := true, courseCompletedAt := some e.now }
    else p₁

/-- A sequence of recomputations. -/
def runCalculateProgress (p : ProgressState) (evs : List ProgressEvent) :
    ProgressState :=
  evs.foldl calculateProgress p

/-! ## Lesson model: Lesson.js content blocks and pre-save middleware -/

/-- A stored content block `{type, content, metadata, order}` of the
`Lesson` schema.  The `metadata` field is never read by the verified code
paths and is omitted; `content` is the Mixed payload, kept abstract as a
string. -/
structure ServerBlock where
  btype : String
  content : String
  order : Int
deriving DecidableEq, Repr

/-- The fields of a `Lesson` document involved in enrichment. -/
structure LessonState where
  title : String
  description : String
  content : List ServerBlock
  objectives : List String
  estimatedDuration : String
  isEnriched : Bool
  enrichmentLevel : String
deriving DecidableEq, Repr

/-- Stable insertion by `order` key: the new block goes before the first
block with a strictly larger key, after blocks with equal keys seen so far
in the fold. -/
def insertBlockByOrder (b : ServerBlock) :
    List ServerBlock → List ServerBlock
  | [] => [b]
  | c :: cs =>
    if b.order ≤ c.order then b :: c :: cs else c :: insertBlockByOrder b cs

/-- The in-place `this.content.sort((a, b) => (a.order || 0) - (b.order || 0))`
of the pre-save middleware (stable, as JS `sort` is): realised as a stable
insertion sort.  `order` is a schema `Number` defaulting to 0, modelled as
an always-present `Int` (on which `x || 0` is the identity). -/
def sortBlocksByOrder (l : List ServerBlock) : List ServerBlock :=
  l.foldr insertBlockByOrder []

/-- The block types the pre-save middleware treats as rich content. -/
def richTypes : List String := ["quiz", "exercise", "video", "code"]

/-- The `lessonSchema.pre('save')` middleware: when `content` was modified,
sort the blocks by `order` and force `isEnriched` to true when some block
has a rich type or there are more than 3 blocks. -/
def lessonPreSave (l : LessonState) (contentModified : Bool) : LessonState :=
  if contentModified then
    let sorted := sortBlocksByOrder l.content
    let hasRichContent := sorted.any (fun b => richTypes.contains b.btype)
    if hasRichContent ∨ sorted.length > 3 then
      { l with content := sorted, isEnriched := true }
    else
      { l with content := sorted }
  else l

/-- The stub lesson created for each outline lesson by `generateCourse` in
the course controller: a single placeholder paragraph holding the
description, `isEnriched = false`, and the schema default
`enrichmentLevel`. -/
def stubLesson (title description : String) (objectives : List String)
    (estimatedDuration : String) : LessonState :=
  { title := title
    description := description
    content := [{ btype := "paragraph", content := description, order := 0 }]
    objectives := objectives
    estimatedDuration := estimatedDuration
    isEnriched := false
    enrichmentLevel := "basic" }

/-! ## Lesson controller: getLesson read-through enrichment -/

/-- The fields of a successful `aiService.generateLesson` result the
controller copies into the lesson. -/
structure GeneratedLesson where
  content : List ServerBlock
  objectives : List String
  estimatedDuration : String
deriving DecidableEq, Repr

/-- The mutation `getLesson` performs on the lesson document after a
successful generation (before `lesson.save()`). -/
def applyGeneratedContent (l : LessonState) (g : GeneratedLesson) :
    LessonState :=
  { l with
    content := g.content
    objectives := g.objectives
    estimatedDuration := g.estimatedDuration
    isEnriched := true
    enrichmentLevel := "comprehensive" }

/-- The read-through enrichment step of `getLesson`: generation is invoked
only when `lesson.isEnriched` is false; the AI outcome is supplied as
`aiResult` (`none` models `aiResult.success === false`), and the lesson is
mutated only on success.  The returned `Bool` records whether generation
was invoked. -/
def getLessonEnrichment (l : LessonState) (aiResult : Option GeneratedLesson) :
    LessonState × Bool :=
  if l.isEnriched = false then
    match aiResult with
    | some g => (applyGeneratedContent l g, true)
    | none => (l, true)
  else (l, false)

/-! ## Course controller: generateCourse persistence loop

The database is modelled as the set of documents saved so far.  Module and
lesson `save()` calls can be made to throw through the `failModule` /
`failLesson` oracles, matching the failure-injection scenario of the claim;
a thrown save lands in the controller's `catch`, which responds with
`INTERNAL_ERROR` and performs no rollback.
-/

/-- One lesson of the AI course outline. -/
structure OutlineLesson where
  title : String
  description : String
  objectives : List String
  estimatedDuration : String
deriving DecidableEq, Repr

/-- One module of the AI course outline. -/
structure OutlineModule where
  title : String
  description : String
  estimatedDuration : String
  objectives : List String
  lessons : List OutlineLesson
deriving DecidableEq, Repr

/-- The parsed AI course outline (`aiResult.data`). -/
structure CourseOutline where
  title : String
  description : String
  tags : List String
  difficulty : String
  estimatedDuration : String
  modules : List OutlineModule
deriving DecidableEq, Repr

/-- Documents persisted by `generateCourse`: whether the Course document
was saved, the order indexes of saved Module documents, and the
(moduleIndex, lessonIndex) pairs of saved Lesson documents (each saved
lesson being the corresponding `stubLesson`). -/
structure DBState where
  courseSaved : Bool
  savedModules : List Nat
  savedLessons : List (Nat × Nat)
deriving DecidableEq, Repr

/-- The empty database. -/
def emptyDB : DBState := ⟨false, [], []⟩

/-- Outcome of the `generateCourse` request handler. -/
inductive CourseGenOutcome where
  | created
  | aiGenerationFailed
  | internalError
deriving DecidableEq, Repr

/-- The inner lesson loop of `generateCourse`: save a stub lesson per
outline lesson in order; a failing `lesson.save()` aborts the whole
handler (second component `false`). -/
def saveLessons (failLesson : Nat → Nat → Bool) (i : Nat) :
    Nat → DBState → List OutlineLesson → DBState × Bool
  | _, db, [] => (db, true)
  | j, db, _ :: rest =>
    if failLesson i j then (db, false)
    else
      saveLessons failLesson i (j + 1)
        { db with savedLessons := db.savedLessons ++ [(i, j)] } rest

/-- The module loop of `generateCourse`: save each module, then its stub
lessons; a failing save aborts the handler with the documents saved so far
left in place. -/
def saveModules (failModule : Nat → Bool) (failLesson : Nat → Nat → Bool) :
    Nat → DBState → List OutlineModule → DBState × Bool
  | _, db, [] => (db, true)
  | i, db, m :: rest =>
    if failModule i then (db, false)
    else
      match saveLessons failLesson i 0
          { db with savedModules := db.savedModules ++ [i] } m.lessons with
      | (db₂, true) => saveModules failModule failLesson (i + 1) db₂ rest
      | (db₂, false) => (db₂, false)

/-- The `generateCourse` request handler after topic validation: on AI
failure respond with `AI_GENERATION_FAILED` and write nothing; on success
save the Course document first, then iterate modules and lessons.  An
error thrown mid-iteration reaches the `catch`, which responds with
`INTERNAL_ERROR` without deleting anything already saved. -/
def generateCourse (aiResult : Option CourseOutline)
    (failModule : Nat → Bool) (failLesson : Nat → Nat → Bool) :
    DBState × CourseGenOutcome :=
  match aiResult with
  | none => (emptyDB, .aiGenerationFailed)
  | some outline =>
    let db₀ : DBState := { emptyDB with courseSaved := true }
    let r := saveModules failModule failLesson 0 db₀ outline.modules
    (r.1, if r.2 then .created else .internalError)

/-! ## General list helpers -/

theorem dropWhile_append_head {α : Type} (p : α → Bool) (l₁ l₂ : List α)
    (h : ∀ c, l₂.head? = some c → p c = false) :
    (l₁ ++ l₂).dropWhile p = l₁.dropWhile p ++ l₂ := by
  induction l₁ with
  | nil =>
    cases l₂ with
    | nil => simp
    | cons a t => simp [List.dropWhile_cons, h a rfl]
  | cons a t ih =>
    simp only [List.cons_append, List.dropWhile_cons]
    by_cases hp : p a = true
    · simp [hp, ih]
    · simp at hp
      simp [hp]

/-- A list starting with an element failing the predicate is untouched by
`dropWhile`. -/
theorem dropWhile_id_of_head {α : Type} (p : α → Bool) (l : List α)
    (h : ∀ c, l.head? = some c → p c = false) :
    l.dropWhile p = l := by
  have := dropWhile_append_head p [] l h
  simpa using this

/-- Helper: `List.findIdx?` skips over a prefix with no match, shifting the accumulator by
its length. -/
theorem findIdx?_append_of_none {α : Type} (p : α → Bool) (l₁ l₂ : List α)
    (h₁ : ∀ c ∈ l₁, p c = false) :
    ∀ i, List.findIdx? p (l₁ ++ l₂) i = List.findIdx? p l₂ (i + l₁.length) := by
  induction l₁ with
  | nil => intro i; simp
  | cons a t ih =>
    intro i
    have ha : p a = false := h₁ a (by simp)
    simp only [List.cons_append, List.findIdx?_cons, ha]
    simp only [Bool.false_eq_true, if_false]
    rw [ih (fun c hc => h₁ c (by simp [hc])) (i + 1)]
    congr 1
    simp
    omega

/-- Membership transfers out of `dropWhile`. -/
theorem mem_of_mem_dropWhile {α : Type} (p : α → Bool) (l : List α) (c : α)
    (h : c ∈ l.dropWhile p) : c ∈ l :=
  (List.dropWhile_sublist p).mem h

/-! ## Progress helper lemmas -/

/-- Helper: `List.findIdx?` misses a list on which the predicate is nowhere
true. -/
theorem findIdx?_none {α : Type} (p : α → Bool) (l : List α)
    (h : ∀ a ∈ l, p a = false) : ∀ i, List.findIdx? p l i = none := by
  induction l with
  | nil => intro i; simp
  | cons a t ih =>
    intro i
    have ha : p a = false := h a (by simp)
    simp only [List.findIdx?_cons, ha]
    simp only [Bool.false_eq_true, if_false]
    exact ih (fun b hb => h b (by simp [hb])) (i + 1)

/-- Helper: in-place update of the appended last element. -/
theorem modifyAt_append_singleton {α : Type} (f : α → α) (l : List α) (e : α) :
    modifyAt f l.length (l ++ [e]) = l ++ [f e] := by
  induction l with
  | nil => simp [modifyAt]
  | cons a t ih => simp [modifyAt, ih]

/-- Helper: `completeModule` does not touch `completedLessons`. -/
theorem isLessonCompleted_completeModule (p : ProgressState)
    (moduleId now lessonId : Nat) :
    isLessonCompleted (completeModule p moduleId now) lessonId
      = isLessonCompleted p lessonId := by
  unfold completeModule
  cases p.completedModules.findIdx? (fun cm => cm.module == moduleId) <;> rfl

/-- Helper: a successful `findIdx?` means some element satisfies the
predicate. -/
theorem any_of_findIdx?_some {α : Type} (p : α → Bool) (l : List α) :
    ∀ i j, List.findIdx? p l i = some j → l.any p = true := by
  induction l with
  | nil => intro i j h; simp at h
  | cons a t ih =>
    intro i j h
    rw [List.findIdx?_cons] at h
    by_cases hpa : p a = true
    · simp [hpa]
    · simp only [Bool.not_eq_true] at hpa
      rw [hpa] at h
      simp only [Bool.false_eq_true, if_false] at h
      simp only [List.any_cons, hpa, Bool.false_or]
      exact ih (i + 1) j h

/-- Helper: after `completeModule`, the module reads as completed. -/
theorem isModuleCompleted_completeModule_self (p : ProgressState)
    (moduleId now : Nat) :
    isModuleCompleted (completeModule p moduleId now) moduleId = true := by
  unfold completeModule
  rcases hidx : p.completedModules.findIdx? (fun cm => cm.module == moduleId)
      with _ | i
  · rw [hidx]
    unfold isModuleCompleted
    simp
  · rw [hidx]
    unfold isModuleCompleted
    exact any_of_findIdx?_some _ _ 0 i hidx

/-! ## Claim C5 -/

/-- Claim C5: `makeGeminiRequest` attempts the call at most `maxRetries = 3`
times, retrying on any failure with a delay of `retryDelay * attemptNumber`
between attempts; when every attempt fails it surfaces the error of the last
attempt (which carries the HTTP status for non-2xx responses); a success
stops the loop immediately. -/
theorem makeGeminiRequest_retry_policy
    (oracle : Nat → Except GeminiFailure String) (e₁ e₂ e₃ : GeminiFailure)
    (h₁ : oracle 1 = .error e₁) (h₂ : oracle 2 = .error e₂)
    (h₃ : oracle 3 = .error e₃) :
    (makeGeminiRequest oracle).result = .error e₃ ∧
    (makeGeminiRequest oracle).delays = [retryDelay * 1, retryDelay * 2] ∧
    (makeGeminiRequest oracle).attemptsMade = 3 ∧
    (∀ o : Nat → Except GeminiFailure String,
      (makeGeminiRequest o).attemptsMade ≤ maxRetries) ∧
    (∀ (o : Nat → Except GeminiFailure String) (f : GeminiFailure) (s : String),
      o 1 = .error f → o 2 = .ok s →
      (makeGeminiRequest o).result = .ok s.trim ∧
      (makeGeminiRequest o).delays = [retryDelay * 1] ∧
      (makeGeminiRequest o).attemptsMade = 2) := by
  refine ⟨?_, ?_, ?_, ?_, ?_⟩
  · simp [makeGeminiRequest, maxRetries, geminiGo, h₁, h₂, h₃]
  · simp [makeGeminiRequest, maxRetries, geminiGo, h₁, h₂, h₃]
  · simp [makeGeminiRequest, maxRetries, geminiGo, h₁, h₂, h₃]
  · intro o
    rcases ho₁ : o 1 with s₁ | e
    all_goals rcases ho₂ : o 2 with s₂ | e'
    all_goals rcases ho₃ : o 3 with s₃ | e''
    all_goals simp [makeGeminiRequest, maxRetries, geminiGo, ho₁, ho₂, ho₃]
  · intro o f s ho₁ ho₂
    refine ⟨?_, ?_, ?_⟩ <;>
      simp [makeGeminiRequest, maxRetries, geminiGo, ho₁, ho₂]

/-- Concrete instance of `makeGeminiRequest_retry_policy`: every attempt
fails with HTTP 500, so three attempts run with delays of 1000 ms and
2000 ms and the final result is the last 500 error. -/
theorem makeGeminiRequest_retry_policy_witness :
    (makeGeminiRequest
        (fun _ => .error (.apiError 500 "Internal Server Error"))).result
      = .error (.apiError 500 "Internal Server Error") ∧
    (makeGeminiRequest
        (fun _ => .error (.apiError 500 "Internal Server Error"))).delays
      = [1000, 2000] ∧
    (makeGeminiRequest
        (fun _ => .error (.apiError 500 "Internal Server Error"))).attemptsMade
      = 3 := by
  have h := makeGeminiRequest_retry_policy
    (fun _ => .error (.apiError 500 "Internal Server Error"))
    (.apiError 500 "Internal Server Error")
    (.apiError 500 "Internal Server Error")
    (.apiError 500 "Internal Server Error") rfl rfl rfl
  refine ⟨h.1, ?_, h.2.2.1⟩
  have hd := h.2.1
  simpa [retryDelay] using hd

/-! ## Claim C6 lemmas -/

/-- A text whose first character is not a backtick starts with neither fence
marker. -/
theorem isPrefixOf_fence_false (s : List Char)
    (h : ∀ c, s.head? = some c → c ≠ btick) :
    ("```json".toList.isPrefixOf s = false) ∧
    ("```".toList.isPrefixOf s = false) := by
  have hj : "```json".toList = btick :: btick :: btick :: ['j', 's', 'o', 'n'] := by
    decide
  have hp : "```".toList = btick :: btick :: btick :: [] := by
    decide
  cases s with
  | nil => rw [hj, hp]; constructor <;> simp [List.isPrefixOf]
  | cons a t =>
    have ha := h a rfl
    rw [hj, hp]
    constructor <;> simp [List.isPrefixOf, Ne.symm ha]

/-- Trimming prose-wrapped text with a non-whitespace first and last
character in the middle part only trims the outer prose. -/
theorem trimChars_wrap (pre mid post : List Char)
    (hmid : mid ≠ [])
    (hhead : ∀ c, mid.head? = some c → jsWs c = false)
    (hlast : ∀ c, mid.reverse.head? = some c → jsWs c = false) :
    trimChars (pre ++ mid ++ post)
      = pre.dropWhile jsWs ++ mid ++ (post.reverse.dropWhile jsWs).reverse := by
  unfold trimChars
  have h₁ : (pre ++ mid ++ post).dropWhile jsWs
      = pre.dropWhile jsWs ++ (mid ++ post) := by
    rw [List.append_assoc]
    refine dropWhile_append_head jsWs pre (mid ++ post) ?_
    intro c hc
    apply hhead
    cases mid with
    | nil => exact absurd rfl hmid
    | cons a t => simpa using hc
  rw [h₁]
  have h₂ : (pre.dropWhile jsWs ++ (mid ++ post)).reverse
      = post.reverse ++ (mid.reverse ++ (pre.dropWhile jsWs).reverse) := by
    simp
  rw [h₂]
  have h₃ : (post.reverse ++ (mid.reverse ++ (pre.dropWhile jsWs).reverse)).dropWhile jsWs
      = post.reverse.dropWhile jsWs ++ (mid.reverse ++ (pre.dropWhile jsWs).reverse) := by
    refine dropWhile_append_head jsWs _ _ ?_
    intro c hc
    apply hlast
    cases hm : mid.reverse with
    | nil => simp [List.reverse_eq_nil_iff] at hm; exact absurd hm hmid
    | cons a t => rw [hm] at hc; simpa [hm] using hc
  rw [h₃]
  simp

/-- The substring step recovers exactly the middle part when the outer parts
are brace-free and the middle starts with `{` and ends with `}`. -/
theorem jsSubstring_extract (pre mid post : List Char) (h : 1 ≤ mid.length) :
    jsSubstring (pre ++ mid ++ post) pre.length (pre.length + mid.length) = mid := by
  unfold jsSubstring
  have hlen : (pre ++ mid ++ post).length
      = pre.length + mid.length + post.length := by simp; omega
  have ha : min pre.length (pre ++ mid ++ post).length = pre.length := by
    rw [hlen]; omega
  have hb : min (pre.length + mid.length) (pre ++ mid ++ post).length
      = pre.length + mid.length := by
    rw [hlen]; omega
  simp only [ha, hb]
  have hmin : min pre.length (pre.length + mid.length) = pre.length := by omega
  have hmax : max pre.length (pre.length + mid.length)
      = pre.length + mid.length := by omega
  simp only [hmin, hmax]
  rw [List.append_assoc, List.drop_left]
  have : pre.length + mid.length - pre.length = mid.length := by omega
  rw [this, List.take_left]

/-- Lemma: `firstBraceIdx` finds the head of the middle part when the prefix is
brace-free and the middle starts with `{`. -/
theorem firstBraceIdx_wrap (pre rest : List Char)
    (hpre : ∀ c ∈ pre, c ≠ '{') :
    firstBraceIdx (pre ++ '{' :: rest) = some pre.length := by
  unfold firstBraceIdx
  rw [findIdx?_append_of_none (· = '{') pre ('{' :: rest)
      (by intro c hc; simpa using hpre c hc) 0]
  simp [List.findIdx?_cons]

/-- Lemma: `lastBraceIdx` finds the final closing brace when the suffix is
brace-free. -/
theorem lastBraceIdx_wrap (front post : List Char)
    (hpost : ∀ c ∈ post, c ≠ '}') :
    lastBraceIdx (front ++ '}' :: post)
      = some front.length := by
  unfold lastBraceIdx
  have h₁ : (front ++ '}' :: post).reverse
      = post.reverse ++ '}' :: front.reverse := by
    simp
  rw [h₁]
  rw [findIdx?_append_of_none (· = '}') post.reverse ('}' :: front.reverse)
      (by intro c hc; simp at hc; simpa using hpost c hc) 0]
  have hfind : List.findIdx? (· = '}') ('}' :: front.reverse)
      (0 + post.reverse.length) = some (0 + post.reverse.length) := by
    simp [List.findIdx?_cons]
  rw [hfind]
  have h₂ : (front ++ '}' :: post).length
      = front.length + post.length + 1 := by simp; omega
  rw [h₂]
  simp only [List.length_reverse]
  congr 1
  omega

/-- The cleanup pipeline of `parseJSONResponse` recovers a brace-delimited
object wrapped in brace-free, backtick-free prose. -/
theorem cleanResponse_prose (pre body post : List Char)
    (hpre : ∀ c ∈ pre, c ≠ '{' ∧ c ≠ '}' ∧ c ≠ btick)
    (hpost : ∀ c ∈ post, c ≠ '{' ∧ c ≠ '}') :
    cleanResponse (pre ++ ('{' :: body ++ ['}']) ++ post)
      = '{' :: body ++ ['}'] := by
  set mid : List Char := '{' :: body ++ ['}'] with hmid
  have hmid_ne : mid ≠ [] := by simp [hmid]
  have hmid_head : ∀ c, mid.head? = some c → jsWs c = false := by
    intro c hc
    simp [hmid] at hc
    simp [← hc, jsWs]
  have hmid_rev : mid.reverse = '}' :: (body.reverse ++ ['{']) := by
    simp [hmid]
  have hmid_last : ∀ c, mid.reverse.head? = some c → jsWs c = false := by
    intro c hc
    rw [hmid_rev] at hc
    simp at hc
    simp [← hc, jsWs]
  have htrim := trimChars_wrap pre mid post hmid_ne hmid_head hmid_last
  set pre' : List Char := pre.dropWhile jsWs with hpre'
  set post' : List Char := (post.reverse.dropWhile jsWs).reverse with hpost'
  have hpre'_sub : ∀ c ∈ pre', c ≠ '{' ∧ c ≠ '}' ∧ c ≠ btick := by
    intro c hc
    exact hpre c (mem_of_mem_dropWhile jsWs pre c hc)
  have hpost'_sub : ∀ c ∈ post', c ≠ '{' ∧ c ≠ '}' := by
    intro c hc
    apply hpost
    rw [hpost'] at hc
    simp at hc
    have := mem_of_mem_dropWhile jsWs post.reverse c hc
    simpa using this
  unfold cleanResponse
  rw [htrim]
  -- the trimmed text does not start with a fence
  have hnofence := isPrefixOf_fence_false (pre' ++ mid ++ post') ?hd
  case hd =>
    intro c hc
    cases hp : pre' with
    | nil =>
      rw [hp] at hc
      simp [hmid] at hc
      rw [← hc]
      decide
    | cons a t =>
      rw [hp] at hc
      simp at hc
      have := (hpre'_sub a (by rw [hp]; simp)).2.2
      rw [← hc]
      exact this
  have hsf : stripFences (pre' ++ mid ++ post') = pre' ++ mid ++ post' := by
    unfold stripFences
    rw [hnofence.1, hnofence.2]
    simp
  rw [hsf]
  -- brace location
  unfold extractBracesSpan
  have hfst : firstBraceIdx (pre' ++ mid ++ post') = some pre'.length := by
    have : pre' ++ mid ++ post' = pre' ++ '{' :: (body ++ ['}'] ++ post') := by
      simp [hmid]
    rw [this]
    exact firstBraceIdx_wrap pre' _ (fun c hc => (hpre'_sub c hc).1)
  have hlst : lastBraceIdx (pre' ++ mid ++ post')
      = some (pre'.length + mid.length - 1) := by
    have hshape : pre' ++ mid ++ post'
        = (pre' ++ '{' :: body) ++ '}' :: post' := by
      simp [hmid]
    rw [hshape]
    rw [lastBraceIdx_wrap (pre' ++ '{' :: body) post'
      (fun c hc => (hpost'_sub c hc).2)]
    congr 1
    simp only [hmid, List.length_append, List.length_cons, List.length_nil]
    omega
  have hmidlen : 1 ≤ mid.length := by
    simp only [hmid, List.length_append, List.length_cons, List.length_nil]
    omega
  rw [hfst, hlst]
  show jsSubstring (pre' ++ mid ++ post') pre'.length
      (pre'.length + mid.length - 1 + 1) = mid
  have harith : pre'.length + mid.length - 1 + 1 = pre'.length + mid.length := by
    omega
  rw [harith]
  exact jsSubstring_extract pre' mid post' hmidlen

/-- Taking a substring of the whole text returns the text. -/
theorem jsSubstring_full (s : List Char) : jsSubstring s 0 s.length = s := by
  unfold jsSubstring
  simp

/-- A bare brace-delimited object is left unchanged by the brace-location
step. -/
theorem extractBracesSpan_mid (body : List Char) :
    extractBracesSpan ('{' :: body ++ ['}']) = '{' :: body ++ ['}'] := by
  unfold extractBracesSpan
  have h₁ : firstBraceIdx ('{' :: body ++ ['}']) = some 0 := by
    simp [firstBraceIdx, List.findIdx?_cons]
  have h₂ : lastBraceIdx ('{' :: body ++ ['}']) = some (body.length + 1) := by
    simp [lastBraceIdx, List.reverse_append, List.findIdx?_cons]
  rw [h₁, h₂]
  show jsSubstring ('{' :: body ++ ['}']) 0 (body.length + 1 + 1)
      = '{' :: body ++ ['}']
  have hl : ('{' :: body ++ ['}']).length = body.length + 1 + 1 := by
    simp
  rw [← hl, jsSubstring_full]

/-- The cleanup pipeline recovers an object wrapped in a fenced code block
with the `json` language tag. -/
theorem cleanResponse_fenced_json (body : List Char) :
    cleanResponse
        ("```json\n".toList ++ ('{' :: body ++ ['}']) ++ "\n```".toList)
      = '{' :: body ++ ['}'] := by
  unfold cleanResponse
  have htrim :
      trimChars ("```json\n".toList ++ ('{' :: body ++ ['}']) ++ "\n```".toList)
        = "```json\n".toList ++ ('{' :: body ++ ['}']) ++ "\n```".toList := by
    unfold trimChars
    simp [List.dropWhile_cons, jsWs, List.reverse_append]
  rw [htrim]
  have hsf :
      stripFences ("```json\n".toList ++ ('{' :: body ++ ['}']) ++ "\n```".toList)
        = '{' :: body ++ ['}'] := by
    unfold stripFences
    simp [List.isPrefixOf, List.dropWhile_cons, jsWs]
    unfold stripTrailingFence endsWithTicks
    simp [List.reverse_append, List.isPrefixOf, List.dropWhile_cons, jsWs]
  rw [hsf]
  exact extractBracesSpan_mid body

/-- The cleanup pipeline recovers an object wrapped in a fenced code block
without a language tag. -/
theorem cleanResponse_fenced_plain (body : List Char) :
    cleanResponse ("```\n".toList ++ ('{' :: body ++ ['}']) ++ "\n```".toList)
      = '{' :: body ++ ['}'] := by
  unfold cleanResponse
  have htrim :
      trimChars ("```\n".toList ++ ('{' :: body ++ ['}']) ++ "\n```".toList)
        = "```\n".toList ++ ('{' :: body ++ ['}']) ++ "\n```".toList := by
    unfold trimChars
    simp [List.dropWhile_cons, jsWs, List.reverse_append]
  rw [htrim]
  have hsf :
      stripFences ("```\n".toList ++ ('{' :: body ++ ['}']) ++ "\n```".toList)
        = '{' :: body ++ ['}'] := by
    unfold stripFences
    simp [List.isPrefixOf, List.dropWhile_cons, jsWs]
    unfold stripTrailingFence endsWithTicks
    simp [List.reverse_append, List.isPrefixOf, List.dropWhile_cons, jsWs]
  rw [hsf]
  exact extractBracesSpan_mid body

/-! ## Claim C6 -/

/-- Claim C6: `parseJSONResponse` strips a leading and trailing fence line
(with or without a language tag), then takes the substring from the first
opening brace to the last closing brace inclusive and parses it, so an
object surrounded by brace-free prose (or wrapped in a fence) is recovered;
if parsing of the cleaned text fails, the invalid-JSON error is surfaced —
this layer performs no retry (the parse oracle is consulted exactly once,
on the cleaned text). -/
theorem parseJSONResponse_extraction {J : Type} (parse : List Char → Option J)
    (pre body post : List Char) (v : J)
    (hpre : ∀ c ∈ pre, c ≠ '{' ∧ c ≠ '}' ∧ c ≠ btick)
    (hpost : ∀ c ∈ post, c ≠ '{' ∧ c ≠ '}')
    (hv : parse ('{' :: body ++ ['}']) = some v) :
    parseJSONResponse parse (pre ++ ('{' :: body ++ ['}']) ++ post) = .ok v ∧
    parseJSONResponse parse
        ("```json\n".toList ++ ('{' :: body ++ ['}']) ++ "\n```".toList)
      = .ok v ∧
    parseJSONResponse parse
        ("```\n".toList ++ ('{' :: body ++ ['}']) ++ "\n```".toList) = .ok v ∧
    (∀ s, parse (cleanResponse s) = none →
      parseJSONResponse parse s = .error .invalidJSON) := by
  refine ⟨?_, ?_, ?_, ?_⟩
  · unfold parseJSONResponse
    rw [cleanResponse_prose pre body post hpre hpost, hv]
  · unfold parseJSONResponse
    rw [cleanResponse_fenced_json body, hv]
  · unfold parseJSONResponse
    rw [cleanResponse_fenced_plain body, hv]
  · intro s hs
    unfold parseJSONResponse
    rw [hs]

/-- Concrete instance of `parseJSONResponse_extraction`: the object is
recovered from the prose wrapping used in the spec example. -/
theorem parseJSONResponse_extraction_witness :
    parseJSONResponse
        (fun s => if s = ['{', 'a', ':', '1', '}'] then some 1 else none)
        ("Here you go: ".toList ++ ('{' :: ['a', ':', '1'] ++ ['}'])
          ++ " Hope that helps".toList)
      = .ok 1 :=
  (parseJSONResponse_extraction
    (fun s => if s = ['{', 'a', ':', '1', '}'] then some 1 else none)
    "Here you go: ".toList ['a', ':', '1'] " Hope that helps".toList 1
    (by decide) (by decide) (by decide)).1

/-! ## Claim C7 -/

/-- Claim C7: normalizing a provider block list maps every block with an
unrecognized type to a paragraph block whose text contains the type name,
and no block is dropped — the output list has exactly the length of the
input. -/
theorem transformContentBlocks_unknown_placeholder :
    (∀ blocks : List APIContentBlock,
      (transformContentBlocks blocks).length = blocks.length) ∧
    (∀ (t : String) (ord : Int),
      transformBlock (.unknown t ord)
          = .paragraph ("Unknown content type: " ++ t) ∧
      ∃ leadText, "Unknown content type: " ++ t = leadText ++ t) := by
  refine ⟨fun blocks => by simp [transformContentBlocks],
    fun t ord => ⟨rfl, "Unknown content type: ", rfl⟩⟩

/-! ## Claim C2 -/

/-- Counterexample to claim C2 as stated: with `answer = 99` and 4 options,
normalization (`transformContentBlocks`) does not clamp the index to 0 —
the produced block still carries `answer = 99` — and the interactive
`MCQBlock` renderer, which compares option indexes against the raw answer,
marks no option as correct and grades a selection of option 0 as incorrect,
unlike a block with `answer = 0`.  (Nothing throws; only the PDF renderers
clamp.) -/
theorem mcq_answer_not_clamped_counterexample :
    transformBlock (.quiz "Q" ["A", "B", "C", "D"] 99 none 0)
      = .mcq "Q" ["A", "B", "C", "D"] 99 none ∧
    mcqOptionShowsCorrect 99 0 = false ∧
    mcqOptionShowsCorrect 0 0 = true ∧
    mcqGrade 99 0 = false ∧
    mcqGrade 0 0 = true :=
  ⟨rfl, by decide, by decide, by decide, by decide⟩

/-- Claim C2 (amended): the PDF MCQ renderers clamp an out-of-range answer
index to 0 (and the clamped index is always in bounds, so rendering never
throws); normalization passes `correctAnswer` through unchanged, and the
interactive renderer compares option indexes against the raw answer, so an
out-of-range answer marks no option as correct there (still without
throwing). -/
theorem mcq_answer_clamping_amended (answer : Int) (n : Nat) (hn : 0 < n) :
    (¬(0 ≤ answer ∧ answer < (n : Int)) → pdfValidAnswer answer n = 0) ∧
    ((0 ≤ answer ∧ answer < (n : Int)) → pdfValidAnswer answer n = answer) ∧
    (0 ≤ pdfValidAnswer answer n ∧ pdfValidAnswer answer n < (n : Int)) ∧
    (∀ (q : String) (opts : List String) (ex : Option String) (ord : Int),
      transformBlock (.quiz q opts answer ex ord) = .mcq q opts answer ex) ∧
    ((n : Int) ≤ answer →
      ∀ i : Nat, i < n → mcqOptionShowsCorrect answer i = false) := by
  refine ⟨?_, ?_, ?_, fun q opts ex ord => rfl, ?_⟩
  · intro h
    simp only [pdfValidAnswer, if_neg h]
  · intro h
    simp only [pdfValidAnswer, if_pos h]
  · unfold pdfValidAnswer
    split
    · omega
    · constructor
      · omega
      · exact_mod_cast hn
  · intro h i hi
    simp only [mcqOptionShowsCorrect, decide_eq_false_iff_not]
    omega

/-- Concrete instance of `mcq_answer_clamping_amended` at `answer = 99`
with 4 options. -/
theorem mcq_answer_clamping_amended_witness :
    pdfValidAnswer 99 4 = 0 ∧
    transformBlock (.quiz "Q2" ["A", "B", "C", "D"] 99 none 1)
      = .mcq "Q2" ["A", "B", "C", "D"] 99 none ∧
    mcqOptionShowsCorrect 99 3 = false := by
  have h := mcq_answer_clamping_amended 99 4 (by decide)
  exact ⟨h.1 (by decide), h.2.2.2.1 "Q2" ["A", "B", "C", "D"] none 1,
    h.2.2.2.2 (by decide) 3 (by decide)⟩

/-! ## Claim C4 -/

/-- Helper: `filter` of a list on which the predicate is nowhere true is
empty. -/
theorem filter_eq_nil_of_all_false {α : Type} (p : α → Bool) (l : List α)
    (h : ∀ a ∈ l, p a = false) : l.filter p = [] := by
  induction l with
  | nil => rfl
  | cons a t ih =>
    have ha := h a (by simp)
    simp only [List.filter_cons, ha, Bool.false_eq_true, if_false]
    exact ih (fun b hb => h b (by simp [hb]))

/-- Helper: `modifyAt` with a predicate-preserving function preserves
`any`. -/
theorem any_modifyAt {α : Type} (p : α → Bool) (f : α → α)
    (hf : ∀ a, p (f a) = p a) :
    ∀ (i : Nat) (l : List α), (modifyAt f i l).any p = l.any p := by
  intro i l
  induction l generalizing i with
  | nil => cases i <;> rfl
  | cons a t ih =>
    cases i with
    | zero => simp [modifyAt, hf]
    | succ n => simp [modifyAt, ih]

/-- Helper: when the lesson is absent, `addCompleted` appends one entry. -/
theorem addCompleted_all_absent (l : List CompletedLesson) (lessonId : Nat)
    (t : Int) (now : Nat)
    (hall : ∀ cl ∈ l, (cl.lesson == lessonId) = false) :
    addCompleted l lessonId t now = l ++ [⟨lessonId, now, t⟩] := by
  unfold addCompleted
  rw [findIdx?_none _ _ hall 0]

/-- Helper: two `addCompleted` calls for a lesson absent from the initial
list produce a single entry whose `timeSpent` is the sum. -/
theorem addCompleted_twice (l : List CompletedLesson) (lessonId : Nat)
    (t₁ t₂ : Int) (n₁ n₂ : Nat)
    (hall : ∀ cl ∈ l, (cl.lesson == lessonId) = false) :
    addCompleted (addCompleted l lessonId t₁ n₁) lessonId t₂ n₂
      = l ++ [⟨lessonId, n₁, t₁ + t₂⟩] := by
  rw [addCompleted_all_absent l lessonId t₁ n₁ hall]
  unfold addCompleted
  rw [findIdx?_append_of_none _ _ _ hall 0]
  have hfind : List.findIdx? (fun cl => cl.lesson == lessonId)
      [(⟨lessonId, n₁, t₁⟩ : CompletedLesson)] (0 + l.length)
      = some (0 + l.length) := by
    simp [List.findIdx?_cons]
  rw [hfind]
  simp only [Nat.zero_add]
  rw [modifyAt_append_singleton]

/-- Claim C4: `completeLesson` is idempotent on the completed-lesson set —
starting from a state with no entry for the lesson, two calls with the same
lesson id leave exactly one entry for that id, carrying the sum of the two
`timeSpent` values, and the other entries unchanged. -/
theorem completeLesson_idempotent (p : ProgressState) (lessonId : Nat)
    (t₁ t₂ : Int) (n₁ n₂ : Nat)
    (h : ∀ cl ∈ p.completedLessons, cl.lesson ≠ lessonId) :
    (completeLesson (completeLesson p lessonId t₁ n₁) lessonId t₂ n₂).completedLessons
      = p.completedLessons ++ [⟨lessonId, n₁, t₁ + t₂⟩] ∧
    ((completeLesson (completeLesson p lessonId t₁ n₁) lessonId t₂ n₂).completedLessons.filter
        (fun cl => cl.lesson == lessonId)).length = 1 := by
  have hall : ∀ cl ∈ p.completedLessons, (cl.lesson == lessonId) = false := by
    intro cl hcl
    simpa using h cl hcl
  have key :
      (completeLesson (completeLesson p lessonId t₁ n₁) lessonId t₂ n₂).completedLessons
        = p.completedLessons ++ [⟨lessonId, n₁, t₁ + t₂⟩] := by
    show addCompleted (addCompleted p.completedLessons lessonId t₁ n₁) lessonId t₂ n₂
        = p.completedLessons ++ [⟨lessonId, n₁, t₁ + t₂⟩]
    exact addCompleted_twice p.completedLessons lessonId t₁ t₂ n₁ n₂ hall
  refine ⟨key, ?_⟩
  rw [key, List.filter_append,
    filter_eq_nil_of_all_false _ p.completedLessons hall]
  simp

/-- Concrete instance of `completeLesson_idempotent`: two completions of
lesson 7 (5 then 3 minutes) on a fresh progress record leave one entry with
8 minutes. -/
theorem completeLesson_idempotent_witness :
    (completeLesson (completeLesson ⟨[], [], false, none, 0, 0⟩ 7 5 1) 7 3 2).completedLessons
      = [⟨7, 1, 8⟩] :=
  (completeLesson_idempotent ⟨[], [], false, none, 0, 0⟩ 7 5 3 1 2
    (by intro cl hcl; simp at hcl)).1

/-! ## Claim C3 -/

/-- Helper: `addCompleted` leaves the added lesson completed. -/
theorem any_addCompleted_self (l : List CompletedLesson) (lessonId : Nat)
    (t : Int) (now : Nat) :
    (addCompleted l lessonId t now).any (fun cl => cl.lesson == lessonId)
      = true := by
  unfold addCompleted
  rcases hidx : l.findIdx? (fun cl => cl.lesson == lessonId) with _ | i
  · rw [hidx]
    simp
  · rw [hidx]
    show (modifyAt (fun cl => { cl with timeSpent := cl.timeSpent + t }) i l).any
        (fun cl => cl.lesson == lessonId) = true
    rw [any_modifyAt (fun cl => cl.lesson == lessonId)
      (fun cl => { cl with timeSpent := cl.timeSpent + t }) (fun a => rfl) i l]
    exact any_of_findIdx?_some _ _ 0 i hidx

/-- Helper: the completed lesson reads as completed afterwards. -/
theorem isLessonCompleted_completeLesson_self (p : ProgressState)
    (lessonId : Nat) (t : Int) (now : Nat) :
    isLessonCompleted (completeLesson p lessonId t now) lessonId = true :=
  any_addCompleted_self p.completedLessons lessonId t now

/-- Helper: `completeLesson` does not touch `completedModules`. -/
theorem isModuleCompleted_completeLesson (p : ProgressState)
    (lessonId : Nat) (t : Int) (now moduleId : Nat) :
    isModuleCompleted (completeLesson p lessonId t now) moduleId
      = isModuleCompleted p moduleId := rfl

/-- Helper: evaluation of `checkModuleCompletion` on a found module with a
non-empty lesson list. -/
theorem checkModuleCompletion_eval (p : ProgressState)
    (moduleLessons : List Nat) (moduleId now : Nat)
    (hne : moduleLessons.isEmpty = false) :
    checkModuleCompletion true p moduleLessons moduleId now
      = if (moduleLessons.all fun x => isLessonCompleted p x) = true ∧
            isModuleCompleted p moduleId = false then
          (⟨true, true⟩, completeModule p moduleId now)
        else
          (⟨moduleLessons.all fun x => isLessonCompleted p x, false⟩, p) := by
  unfold checkModuleCompletion
  rw [if_neg (show ¬(true = false ∨ moduleLessons.isEmpty = true) by
    simp [hne])]

/-- Claim C3: after recording a lesson completion, `checkModuleCompletion`
reports `newlyCompleted = true` exactly when every lesson of the module's
live lesson list is in the completed set and the module was not previously
flagged completed; a second check (e.g. completing the last lesson again)
returns `newlyCompleted = false` while `isCompleted` stays true. -/
theorem checkModuleCompletion_spec (p : ProgressState)
    (lessonId moduleId : Nat) (t : Int) (n₁ n₂ n₃ : Nat)
    (moduleLessons : List Nat) (hmem : lessonId ∈ moduleLessons) :
    let q := completeLesson p lessonId t n₁
    let first := checkModuleCompletion true q moduleLessons moduleId n₂
    ((first.1.newlyCompleted = true) ↔
      (moduleLessons.all (fun x => isLessonCompleted q x) = true ∧
       isModuleCompleted q moduleId = false)) ∧
    (first.1.isCompleted
      = moduleLessons.all (fun x => isLessonCompleted q x)) ∧
    (isLessonCompleted q lessonId = true) ∧
    ((checkModuleCompletion true first.2 moduleLessons moduleId n₃).1.newlyCompleted
      = false) ∧
    (moduleLessons.all (fun x => isLessonCompleted q x) = true →
      (checkModuleCompletion true first.2 moduleLessons moduleId n₃).1.isCompleted
        = true) := by
  intro q first
  have hne : moduleLessons.isEmpty = false := by
    cases moduleLessons with
    | nil => simp at hmem
    | cons a t => rfl
  have hfirst : first
      = if (moduleLessons.all fun x => isLessonCompleted q x) = true ∧
            isModuleCompleted q moduleId = false then
          (⟨true, true⟩, completeModule q moduleId n₂)
        else
          (⟨moduleLessons.all fun x => isLessonCompleted q x, false⟩, q) :=
    checkModuleCompletion_eval q moduleLessons moduleId n₂ hne
  by_cases hcond : (moduleLessons.all fun x => isLessonCompleted q x) = true ∧
      isModuleCompleted q moduleId = false
  · rw [if_pos hcond] at hfirst
    have hall₂ : (moduleLessons.all
        fun x => isLessonCompleted (completeModule q moduleId n₂) x)
        = moduleLessons.all fun x => isLessonCompleted q x := by
      congr 1
      funext x
      exact isLessonCompleted_completeModule q moduleId n₂ x
    have hsecond :
        checkModuleCompletion true (completeModule q moduleId n₂) moduleLessons
            moduleId n₃
          = (⟨moduleLessons.all fun x => isLessonCompleted q x, false⟩,
             completeModule q moduleId n₂) := by
      rw [checkModuleCompletion_eval _ _ _ _ hne]
      rw [hall₂, isModuleCompleted_completeModule_self]
      rw [if_neg (by simp)]
    refine ⟨?_, ?_, isLessonCompleted_completeLesson_self p lessonId t n₁,
      ?_, ?_⟩
    · rw [hfirst]
      exact ⟨fun _ => hcond, fun _ => rfl⟩
    · rw [hfirst]
      exact hcond.1.symm
    · rw [hfirst]
      show (checkModuleCompletion true (completeModule q moduleId n₂)
          moduleLessons moduleId n₃).1.newlyCompleted = false
      rw [hsecond]
    · intro hA
      rw [hfirst]
      show (checkModuleCompletion true (completeModule q moduleId n₂)
          moduleLessons moduleId n₃).1.isCompleted = true
      rw [hsecond]
      exact hA
  · rw [if_neg hcond] at hfirst
    have hsecond :
        checkModuleCompletion true q moduleLessons moduleId n₃
          = (⟨moduleLessons.all fun x => isLessonCompleted q x, false⟩, q) := by
      rw [checkModuleCompletion_eval _ _ _ _ hne]
      rw [if_neg hcond]
    refine ⟨?_, ?_, isLessonCompleted_completeLesson_self p lessonId t n₁,
      ?_, ?_⟩
    · rw [hfirst]
      constructor
      · intro hfalse
        exact absurd hfalse (by simp)
      · intro hc
        exact absurd hc hcond
    · rw [hfirst]
    · rw [hfirst]
      show (checkModuleCompletion true q moduleLessons moduleId
          n₃).1.newlyCompleted = false
      rw [hsecond]
    · intro hA
      rw [hfirst]
      show (checkModuleCompletion true q moduleLessons moduleId
          n₃).1.isCompleted = true
      rw [hsecond]
      exact hA

/-- Concrete instance of `checkModuleCompletion_spec`: with lessons 1 and 2
already completed, completing lesson 3 of module 40 flips it to newly
completed. -/
theorem checkModuleCompletion_spec_witness :
    (checkModuleCompletion true
        (completeLesson ⟨[⟨1, 0, 0⟩, ⟨2, 0, 0⟩], [], false, none, 0, 0⟩ 3 0 5)
        [1, 2, 3] 40 6).1.newlyCompleted = true := by
  have h := checkModuleCompletion_spec
    ⟨[⟨1, 0, 0⟩, ⟨2, 0, 0⟩], [], false, none, 0, 0⟩ 3 40 0 5 6 7 [1, 2, 3]
    (by decide)
  exact h.1.mpr (by decide)

/-! ## Claim C8 -/

/-- Helper: once `courseCompleted` is set, one more `calculateProgress`
keeps it set and leaves the completion timestamp untouched. -/
theorem calculateProgress_frozen (p : ProgressState) (e : ProgressEvent)
    (h : p.courseCompleted = true) :
    (calculateProgress p e).courseCompleted = true ∧
    (calculateProgress p e).courseCompletedAt = p.courseCompletedAt := by
  unfold calculateProgress
  by_cases hf : e.courseFound = false
  · simp [hf, h]
  · simp [hf, h]

/-- Helper: the frozen-state property extends to any sequence of
recomputations. -/
theorem runCalculateProgress_frozen (p : ProgressState)
    (evs : List ProgressEvent) (h : p.courseCompleted = true) :
    (runCalculateProgress p evs).courseCompleted = true ∧
    (runCalculateProgress p evs).courseCompletedAt = p.courseCompletedAt := by
  induction evs generalizing p with
  | nil => exact ⟨h, rfl⟩
  | cons e rest ih =>
    have hstep := calculateProgress_frozen p e h
    have hrest := ih (calculateProgress p e) hstep.1
    exact ⟨hrest.1, hrest.2.trans hstep.2⟩

/-- Claim C8: `courseCompleted` flips to true exactly at the first
recomputation whose percentage reaches 100 (for a found course), recording
`courseCompletedAt := now`; once set, no later recomputation clears the
flag or overwrites the timestamp. -/
theorem calculateProgress_completion_once (p : ProgressState)
    (e : ProgressEvent) (evs : List ProgressEvent) :
    (p.courseCompleted = false →
      (((calculateProgress p e).courseCompleted = true) ↔
        (e.courseFound = true ∧ calcPct p e = 100)) ∧
      (e.courseFound = true → calcPct p e = 100 →
        (calculateProgress p e).courseCompletedAt = some e.now)) ∧
    (p.courseCompleted = true →
      (runCalculateProgress p evs).courseCompleted = true ∧
      (runCalculateProgress p evs).courseCompletedAt = p.courseCompletedAt) := by
  constructor
  · intro h
    constructor
    · unfold calculateProgress
      by_cases hf : e.courseFound = false
      · simp [hf, h]
      · have hf' : e.courseFound = true := by
          revert hf
          cases e.courseFound <;> simp
        by_cases hp : calcPct p e = 100
        · simp [hf, hf', hp, h]
        · simp [hf, hf', hp, h]
    · intro hf hp
      unfold calculateProgress
      simp [hf, hp, h]
  · intro h
    exact runCalculateProgress_frozen p evs h

/-- Concrete instance of `calculateProgress_completion_once`: completing
2 of 2 lessons flips the flag and stamps `now = 42`; a subsequent
recomputation on an already-completed record leaves the original stamp. -/
theorem calculateProgress_completion_once_witness :
    (calculateProgress ⟨[⟨1, 0, 0⟩, ⟨2, 0, 0⟩], [], false, none, 50, 0⟩
        ⟨true, 2, 42⟩).courseCompletedAt = some 42 ∧
    (runCalculateProgress ⟨[], [], true, some 7, 100, 0⟩
        [⟨true, 5, 99⟩]).courseCompletedAt = some 7 := by
  have h₁ := calculateProgress_completion_once
    ⟨[⟨1, 0, 0⟩, ⟨2, 0, 0⟩], [], false, none, 50, 0⟩ ⟨true, 2, 42⟩ []
  have h₂ := calculateProgress_completion_once
    ⟨[], [], true, some 7, 100, 0⟩ ⟨true, 5, 99⟩ [⟨true, 5, 99⟩]
  exact ⟨(h₁.1 rfl).2 rfl (by decide), (h₂.2 rfl).2⟩

/-! ## Claim C9 -/

/-- Claim C9: reading a lesson triggers read-through generation iff
`isEnriched` is false, and a failed enrichment leaves the stub lesson fully
unchanged (in particular `isEnriched` stays false so a later read
retries); an already-enriched lesson is never regenerated or modified by a
read. -/
theorem getLesson_read_through (l : LessonState)
    (r : Option GeneratedLesson) :
    ((getLessonEnrichment l r).2 = true ↔ l.isEnriched = false) ∧
    (l.isEnriched = false → (getLessonEnrichment l none).1 = l) ∧
    (l.isEnriched = false →
      (getLessonEnrichment l none).1.isEnriched = false) ∧
    (l.isEnriched = true → (getLessonEnrichment l r).1 = l) ∧
    (l.isEnriched = false → ∀ g,
      (getLessonEnrichment l (some g)).1.isEnriched = true) := by
  unfold getLessonEnrichment
  by_cases h : l.isEnriched = false
  · cases r with
    | none => simp [h, applyGeneratedContent]
    | some g => simp [h, applyGeneratedContent]
  · have h' : l.isEnriched = true := by
      revert h
      cases l.isEnriched <;> simp
    cases r with
    | none => simp [h', applyGeneratedContent]
    | some g => simp [h', applyGeneratedContent]

/-- Concrete instance of `getLesson_read_through`: a failed enrichment of a
stub lesson changes nothing and still reports that generation ran. -/
theorem getLesson_read_through_witness :
    (getLessonEnrichment (stubLesson "T" "D" [] "10 min") none).1
      = stubLesson "T" "D" [] "10 min" ∧
    (getLessonEnrichment (stubLesson "T" "D" [] "10 min") none).2 = true := by
  have h := getLesson_read_through (stubLesson "T" "D" [] "10 min") none
  exact ⟨h.2.1 rfl, h.1.mpr rfl⟩

/-- Helper: `calculateProgress` (which the controller runs between
`completeLesson` and `checkModuleCompletion`) never changes the
completed-lesson or completed-module sets, so eliding it in the
`checkModuleCompletion` analysis is sound. -/
theorem calculateProgress_preserves_completions (p : ProgressState)
    (e : ProgressEvent) :
    (calculateProgress p e).completedLessons = p.completedLessons ∧
    (calculateProgress p e).completedModules = p.completedModules := by
  unfold calculateProgress
  by_cases hf : e.courseFound = false
  · rw [if_pos hf]
    exact ⟨rfl, rfl⟩
  · rw [if_neg hf]
    by_cases hc : calcPct p e = 100 ∧ p.courseCompleted = false
    · constructor <;> simp [hc]
    · constructor <;> simp [hc]

/-! ## Claim C10 -/

/-- Helper: insertion produces a permutation of consing. -/
theorem perm_insertBlockByOrder (b : ServerBlock) (l : List ServerBlock) :
    List.Perm (insertBlockByOrder b l) (b :: l) := by
  induction l with
  | nil => exact List.Perm.refl _
  | cons c cs ih =>
    unfold insertBlockByOrder
    by_cases h : b.order ≤ c.order
    · rw [if_pos h]
    · rw [if_neg h]
      exact (ih.cons c).trans (List.Perm.swap b c cs)

/-- Helper: the pre-save sort permutes the content blocks. -/
theorem perm_sortBlocksByOrder (l : List ServerBlock) :
    List.Perm (sortBlocksByOrder l) l := by
  induction l with
  | nil => exact List.Perm.refl _
  | cons a t ih =>
    show List.Perm (insertBlockByOrder a (sortBlocksByOrder t)) (a :: t)
    exact (perm_insertBlockByOrder a (sortBlocksByOrder t)).trans (ih.cons a)

/-- Helper: insertion preserves sortedness by `order`. -/
theorem sorted_insertBlockByOrder (b : ServerBlock) (l : List ServerBlock)
    (h : l.Pairwise (fun a c => a.order ≤ c.order)) :
    (insertBlockByOrder b l).Pairwise (fun a c => a.order ≤ c.order) := by
  induction l with
  | nil => simp [insertBlockByOrder]
  | cons c cs ih =>
    rw [List.pairwise_cons] at h
    unfold insertBlockByOrder
    by_cases hb : b.order ≤ c.order
    · rw [if_pos hb]
      rw [List.pairwise_cons]
      constructor
      · intro x hx
        rcases List.mem_cons.mp hx with hx | hx
        · rw [hx]
          exact hb
        · exact le_trans hb (h.1 x hx)
      · exact List.pairwise_cons.mpr h
    · rw [if_neg hb]
      rw [List.pairwise_cons]
      constructor
      · intro x hx
        have hx' := (perm_insertBlockByOrder b cs).mem_iff.mp hx
        rcases List.mem_cons.mp hx' with hx'' | hx''
        · rw [hx'']
          omega
        · exact h.1 x hx''
      · exact ih h.2

/-- Helper: the pre-save sort yields a list sorted by `order`. -/
theorem sorted_sortBlocksByOrder (l : List ServerBlock) :
    (sortBlocksByOrder l).Pairwise (fun a c => a.order ≤ c.order) := by
  induction l with
  | nil => simp [sortBlocksByOrder]
  | cons a t ih =>
    show (insertBlockByOrder a (sortBlocksByOrder t)).Pairwise _
    exact sorted_insertBlockByOrder a (sortBlocksByOrder t) ih

/-- Claim C10: on every save with modified content, the stored content array
is a permutation of the original sorted ascending by block `order`, and
`isEnriched` is forced to true whenever some block has type quiz, exercise,
video or code, or more than 3 blocks exist — so a lesson can be flagged
enriched without AI generation — while the single-paragraph stub from
course generation keeps `isEnriched = false`; a save without content
modification changes nothing. -/
theorem lessonPreSave_spec (l : LessonState) :
    ((lessonPreSave l true).content.Pairwise (fun a c => a.order ≤ c.order)) ∧
    (List.Perm (lessonPreSave l true).content l.content) ∧
    ((l.content.any (fun b => richTypes.contains b.btype) = true ∨
        l.content.length > 3) →
      (lessonPreSave l true).isEnriched = true) ∧
    (∀ t d obj dur,
      (lessonPreSave (stubLesson t d obj dur) true).isEnriched = false) ∧
    (lessonPreSave l false = l) := by
  have hperm := perm_sortBlocksByOrder l.content
  have hsorted := sorted_sortBlocksByOrder l.content
  have heval : lessonPreSave l true
      = if (sortBlocksByOrder l.content).any
            (fun b => richTypes.contains b.btype) = true ∨
          (sortBlocksByOrder l.content).length > 3 then
          { l with content := sortBlocksByOrder l.content, isEnriched := true }
        else
          { l with content := sortBlocksByOrder l.content } := by
    unfold lessonPreSave
    rw [if_pos rfl]
  refine ⟨?_, ?_, ?_, ?_, ?_⟩
  · rw [heval]
    by_cases hcond : (sortBlocksByOrder l.content).any
        (fun b => richTypes.contains b.btype) = true ∨
        (sortBlocksByOrder l.content).length > 3
    · rw [if_pos hcond]
      exact hsorted
    · rw [if_neg hcond]
      exact hsorted
  · rw [heval]
    by_cases hcond : (sortBlocksByOrder l.content).any
        (fun b => richTypes.contains b.btype) = true ∨
        (sortBlocksByOrder l.content).length > 3
    · rw [if_pos hcond]
      exact hperm
    · rw [if_neg hcond]
      exact hperm
  · intro hrich
    have hrich' : (sortBlocksByOrder l.content).any
        (fun b => richTypes.contains b.btype) = true ∨
        (sortBlocksByOrder l.content).length > 3 := by
      rcases hrich with h | h
      · left
        rw [List.any_eq_true] at h ⊢
        obtain ⟨x, hx, hpx⟩ := h
        exact ⟨x, hperm.mem_iff.mpr hx, hpx⟩
      · right
        rw [hperm.length_eq]
        exact h
    rw [heval, if_pos hrich']
  · intro t d obj dur
    rfl
  · rfl

/-- Concrete instance of `lessonPreSave_spec`: saving modified content that
contains a quiz block forces `isEnriched = true` without any AI
generation. -/
theorem lessonPreSave_spec_witness :
    (lessonPreSave
        ⟨"t", "d", [⟨"paragraph", "a", 1⟩, ⟨"quiz", "q", 0⟩], [], "",
          false, "basic"⟩
        true).isEnriched = true :=
  (lessonPreSave_spec
    ⟨"t", "d", [⟨"paragraph", "a", 1⟩, ⟨"quiz", "q", 0⟩], [], "",
      false, "basic"⟩).2.2.1 (by decide)

/-! ## Claim C1 -/

/-- Counterexample to claim C1 as stated: the AI outline call succeeds with
4 modules (one lesson each), and `module.save()` throws on module index 1
(module 2 of 4).  The handler answers `INTERNAL_ERROR`, but the Course
document remains saved, together with module 0 and its stub lesson — the
operation is not all-or-nothing and the Course stays queryable. -/
theorem generateCourse_not_all_or_nothing_counterexample :
    generateCourse
        (some ⟨"T", "D", [], "beginner", "4 weeks",
          [⟨"M1", "D1", "1 week", [], [⟨"L1", "LD1", [], "10 min"⟩]⟩,
           ⟨"M2", "D2", "1 week", [], [⟨"L2", "LD2", [], "10 min"⟩]⟩,
           ⟨"M3", "D3", "1 week", [], [⟨"L3", "LD3", [], "10 min"⟩]⟩,
           ⟨"M4", "D4", "1 week", [], [⟨"L4", "LD4", [], "10 min"⟩]⟩]⟩)
        (fun i => i == 1) (fun _ _ => false)
      = (⟨true, [0], [(0, 0)]⟩, .internalError) := by
  rfl

/-- Helper: the lesson loop only appends to `savedLessons` and leaves the
other components of the database unchanged. -/
theorem saveLessons_shape (failLesson : Nat → Nat → Bool) (i : Nat) :
    ∀ (j : Nat) (db : DBState) (ls : List OutlineLesson),
      ∃ newLessons,
        (saveLessons failLesson i j db ls).1
          = { db with savedLessons := db.savedLessons ++ newLessons } := by
  intro j db ls
  induction ls generalizing j db with
  | nil => exact ⟨[], by simp [saveLessons]⟩
  | cons a rest ih =>
    unfold saveLessons
    by_cases hf : failLesson i j = true
    · rw [if_pos hf]
      exact ⟨[], by simp⟩
    · rw [if_neg hf]
      obtain ⟨tail, htail⟩ := ih (j + 1)
        { db with savedLessons := db.savedLessons ++ [(i, j)] }
      refine ⟨(i, j) :: tail, ?_⟩
      rw [htail]
      simp

/-- Helper: the module loop only appends to `savedModules` and
`savedLessons` and preserves `courseSaved` — nothing saved earlier is ever
removed, whether or not a failure aborts the loop. -/
theorem saveModules_shape (failModule : Nat → Bool)
    (failLesson : Nat → Nat → Bool) :
    ∀ (i : Nat) (db : DBState) (ms : List OutlineModule),
      ∃ newModules newLessons,
        (saveModules failModule failLesson i db ms).1
          = { db with
              savedModules := db.savedModules ++ newModules,
              savedLessons := db.savedLessons ++ newLessons } := by
  intro i db ms
  induction ms generalizing i db with
  | nil => exact ⟨[], [], by simp [saveModules]⟩
  | cons m rest ih =>
    unfold saveModules
    by_cases hf : failModule i = true
    · rw [if_pos hf]
      exact ⟨[], [], by simp⟩
    · rw [if_neg hf]
      obtain ⟨nl, hnl⟩ := saveLessons_shape failLesson i 0
        { db with savedModules := db.savedModules ++ [i] } m.lessons
      rcases hsl : saveLessons failLesson i 0
          { db with savedModules := db.savedModules ++ [i] } m.lessons
        with ⟨db₂, ok⟩
      rw [hsl] at hnl
      simp only at hnl
      cases ok with
      | false =>
        refine ⟨[i], nl, ?_⟩
        show db₂ = _
        rw [hnl]
      | true =>
        obtain ⟨nm', nl', h'⟩ := ih (i + 1) db₂
        refine ⟨[i] ++ nm', nl ++ nl', ?_⟩
        show (saveModules failModule failLesson (i + 1) db₂ rest).1 = _
        rw [h', hnl]
        simp

/-- Claim C1 (amended): if the AI outline call fails, `generateCourse`
persists nothing; once the outline succeeds the Course document is saved
before module iteration, and when an error is thrown while iterating
modules/lessons the handler responds with an error but performs no
rollback — the Course stays persisted (queryable) together with every
Module and Lesson document saved before the failure point, since the loops
only ever append to the database. -/
theorem generateCourse_persistence_amended (outline : CourseOutline)
    (failModule : Nat → Bool) (failLesson : Nat → Nat → Bool) :
    (generateCourse none failModule failLesson
      = (emptyDB, .aiGenerationFailed)) ∧
    ((generateCourse (some outline) failModule failLesson).1.courseSaved
      = true) ∧
    (∀ (i : Nat) (db : DBState) (ms : List OutlineModule),
      ∃ newModules newLessons,
        (saveModules failModule failLesson i db ms).1
          = { db with
              savedModules := db.savedModules ++ newModules,
              savedLessons := db.savedLessons ++ newLessons }) := by
  refine ⟨rfl, ?_, saveModules_shape failModule failLesson⟩
  show (saveModules failModule failLesson 0 ⟨true, [], []⟩ outline.modules).1.courseSaved
      = true
  obtain ⟨nm, nl, h⟩ := saveModules_shape failModule failLesson 0
    ⟨true, [], []⟩ outline.modules
  rw [h]

end TextToCourse
